import Mathlib

/-!
# Echo server: connection state machine, registry and health check

A shallow embedding of `src/echo_server.cc`.

* `Socket` is an instrumented stand-in for the asio TCP socket: it counts the
  asynchronous operations that were issued and are still outstanding, records every
  buffer handed to `async_write` in call order, and counts the calls of `close`.
* `Connection` carries the four data members of the C++ class that matter for the
  behaviour (`write_queue_`, `status_`, `msgbuf_`, `socket_`); the mutex is not a
  field: whatever runs under `socket_mutex_` is one atomic step of the model.
* Logging (`LOG(...)`) has no effect on the state and is left out.
-/

namespace Echo

/-! ## Data model -/

/-- One `char` of `msgbuf_` or of a queued `std::string`. -/
abbrev Byte := UInt8

/-- The contents of one `std::string` (what a `StringPtr` points to). -/
abbrev Msg := List Byte

/-- Value of `sizeof(msgbuf_)` for `char msgbuf_[1024 * 16]`. -/
def msgbuf_size : Nat := 1024 * 16

/-- The enum `Connection::ConnStatus`. -/
inductive ConnStatus where
  | kConnected
  | kError
  | kClosed
  deriving DecidableEq, Repr

/-- The enumerator values `kConnected = 0`, `kError = 1`, `kClosed = 2`. -/
def ConnStatus.toNat : ConnStatus → Nat
  | .kConnected => 0
  | .kError => 1
  | .kClosed => 2

/-- What a handler can tell about its `boost::system::error_code` argument: `!error`,
`error == boost::asio::error::operation_aborted`, or any other error. -/
inductive ErrorCode where
  | success
  | operation_aborted
  | failure
  deriving DecidableEq, Repr

/-- Instrumented socket: outstanding and issued asynchronous operations, the buffers
handed to `async_write` (in call order) and the number of `close` calls. -/
structure Socket where
  is_open : Bool
  receives_pending : Nat
  receives_issued : Nat
  writes_pending : Nat
  written : List Msg
  close_calls : Nat
  deriving DecidableEq, Repr

/-- A socket as handed over by a successful accept. -/
def Socket.accepted : Socket :=
  { is_open := true, receives_pending := 0, receives_issued := 0,
    writes_pending := 0, written := [], close_calls := 0 }

/-- Effect of `socket_->async_receive(buffer(msgbuf_, sizeof(msgbuf_)), handler)`. -/
def Socket.async_receive (s : Socket) : Socket :=
  { s with receives_pending := s.receives_pending + 1,
           receives_issued := s.receives_issued + 1 }

/-- Effect of `async_write(*socket_, buffer(*msg), handler)`. -/
def Socket.async_write (s : Socket) (msg : Msg) : Socket :=
  { s with writes_pending := s.writes_pending + 1, written := s.written ++ [msg] }

/-- Effect of `socket_->close(errcode)`. -/
def Socket.close (s : Socket) : Socket :=
  { s with is_open := false, close_calls := s.close_calls + 1 }

/-- The reactor takes one outstanding receive off the socket to run its handler. -/
def Socket.receive_done (s : Socket) : Socket :=
  { s with receives_pending := s.receives_pending - 1 }

/-- The reactor takes one outstanding write off the socket to run its handler. -/
def Socket.write_done (s : Socket) : Socket :=
  { s with writes_pending := s.writes_pending - 1 }

/-- Result of `status_.exchange(desired)`: the value held before and the value stored. -/
def atomic_exchange (current desired : ConnStatus) : ConnStatus × ConnStatus :=
  (current, desired)

/-- Result of `status_.compare_exchange_strong(expected, desired)`: whether the swap
took place and the value held afterwards. -/
def compare_exchange_strong (current expected desired : ConnStatus) : Bool × ConnStatus :=
  if current = expected then (true, desired) else (false, current)

/-- The class `Connection`: `msgbuf_` is the array as a map from index to byte (only
indices below `msgbuf_size` are ever read or written). -/
structure Connection where
  write_queue_ : List Msg
  status_ : ConnStatus
  msgbuf_ : Nat → Byte
  socket_ : Socket

/-- The constructor `Connection(SocketPtr socket) : status_(kConnected), socket_(socket)`;
`msgbuf_` is not initialised, so its contents are a parameter. -/
def Connection.new (socket : Socket) (msgbuf : Nat → Byte) : Connection :=
  { write_queue_ := [], status_ := .kConnected, msgbuf_ := msgbuf, socket_ := socket }

/-- The expression `std::string(msgbuf_, n)`: the first `n` bytes of the buffer. -/
def string_of (msgbuf : Nat → Byte) (n : Nat) : Msg :=
  (List.range n).map msgbuf

/-- A receive that transfers `data` stores it at the start of the buffer. -/
def store_received (msgbuf : Nat → Byte) (data : Msg) : Nat → Byte :=
  fun i => if h : i < data.length then data.get ⟨i, h⟩ else msgbuf i

/-! ## Connection operations -/

/-- Method `Connection::Start` (line 154). -/
def Connection.Start (c : Connection) : Connection :=
  { c with socket_ := c.socket_.async_receive }

/-- First step of `Close()` (line 158): `status_.exchange(kClosed)`; the result is the
value held before, together with the connection afterwards. -/
def Connection.Close_exchange (c : Connection) : ConnStatus × Connection :=
  let r := atomic_exchange c.status_ .kClosed
  (r.1, { c with status_ := r.2 })

/-- Rest of `Close()` (lines 158-166): the test on the exchanged value and, under
`socket_mutex_`, the socket close. -/
def Connection.Close_body (c : Connection) (old : ConnStatus) : Connection :=
  if old ≠ .kClosed then { c with socket_ := c.socket_.close } else c

/-- Method `Connection::Close` (lines 157-167). -/
def Connection.Close (c : Connection) : Connection :=
  let r := c.Close_exchange
  r.2.Close_body r.1

/-- Method `Connection::status` (line 168). -/
def Connection.status (c : Connection) : ConnStatus := c.status_

/-- Method `Connection::EchoMsg` (lines 206-213). -/
def Connection.EchoMsg (c : Connection) (msg : Msg) : Connection :=
  let c1 := { c with write_queue_ := c.write_queue_ ++ [msg] }
  if c1.write_queue_.length = 1 then
    { c1 with socket_ := c1.socket_.async_write msg }
  else
    c1

/-- The block of lines 173-176 in `ReadHandler`: the next receive is issued. -/
def Connection.rearm_receive (c : Connection) : Connection :=
  { c with socket_ := c.socket_.async_receive }

/-- Method `Connection::ReadHandler` (lines 170-187), the whole body as one step of
the thread that runs it. Line 175 hands `msgbuf_` to the next receive before line 178
reads it: `stored_meanwhile` is what that receive has put into `msgbuf_` by the time
line 178 reads (empty when it has stored nothing yet). -/
def Connection.ReadHandler (c : Connection) (error : ErrorCode) (bytes_transferred : Nat)
    (stored_meanwhile : Msg) : Connection :=
  match error with
  | .success =>
    let c1 := c.rearm_receive
    let c2 := { c1 with msgbuf_ := store_received c1.msgbuf_ stored_meanwhile }
    c2.EchoMsg (string_of c2.msgbuf_ bytes_transferred)
  | .operation_aborted => c
  | .failure =>
    { c with status_ := (compare_exchange_strong c.status_ .kConnected .kError).2 }

/-- Method `Connection::WriteHandler` (lines 188-205). `pop_front` on an empty deque
is undefined behaviour: the model has no result there. -/
def Connection.WriteHandler (c : Connection) (error : ErrorCode) (_bytes_transferred : Nat) :
    Option Connection :=
  match error with
  | .success =>
    match c.write_queue_ with
    | [] => none
    | _ :: rest =>
      match rest with
      | [] => some { c with write_queue_ := rest }
      | next_msg :: _ =>
        some { c with write_queue_ := rest, socket_ := c.socket_.async_write next_msg }
  | .operation_aborted => some c
  | .failure =>
    some { c with status_ := (compare_exchange_strong c.status_ .kConnected .kError).2 }

/-! ## Completions seen by one connection, handlers run one after the other -/

/-- What can happen to a started connection: an outstanding receive completes (with
the bytes it stored), an outstanding write completes, or somebody calls `Close()`.
A read completion also says what the receive that its handler issues at line 175 has
stored into `msgbuf_` before the handler reads the buffer at line 178: asio may
perform that receive at once, or on the reactor's thread, while the handler is still
running. -/
inductive Event where
  | read_done (error : ErrorCode) (data : Msg) (stored_meanwhile : Msg)
  | write_done (error : ErrorCode) (bytes_transferred : Nat)
  | close

/-- A completion needs an operation in flight, and a receive stores at most
`sizeof(msgbuf_)` bytes. -/
def Connection.enabled (c : Connection) : Event → Bool
  | .read_done _ data stored_meanwhile =>
    decide (0 < c.socket_.receives_pending) && decide (data.length ≤ msgbuf_size) &&
      decide (stored_meanwhile.length ≤ msgbuf_size)
  | .write_done _ _ => decide (0 < c.socket_.writes_pending)
  | .close => true

/-- The connection once the completing operation is off the socket and, for a
receive, its bytes are in `msgbuf_`; the handler has not run yet. -/
def Connection.complete (c : Connection) : Event → Connection
  | .read_done _ data _ =>
    { c with socket_ := c.socket_.receive_done, msgbuf_ := store_received c.msgbuf_ data }
  | .write_done _ _ => { c with socket_ := c.socket_.write_done }
  | .close => c

/-- One event: the operation completes and its handler runs to its end. -/
def Connection.step (c : Connection) (e : Event) : Option Connection :=
  if c.enabled e then
    match e with
    | .read_done error data stored_meanwhile =>
      some ((c.complete e).ReadHandler error data.length stored_meanwhile)
    | .write_done error n => (c.complete e).WriteHandler error n
    | .close => some c.Close
  else
    none

/-- A sequence of events, each handler finishing before the next handler starts. -/
def Connection.run (c : Connection) : List Event → Option Connection
  | [] => some c
  | e :: es => (c.step e).bind (fun c1 => c1.run es)

/-- The event is a successful read or write completion. -/
def Event.successful : Event → Bool
  | .read_done .success _ _ => true
  | .write_done .success _ => true
  | _ => false

/-- A successful completion during whose handler the next receive stores nothing into
`msgbuf_` before line 178 has read it. -/
def Event.copied_first : Event → Bool
  | .read_done .success _ [] => true
  | .write_done .success _ => true
  | _ => false

/-- The buffers delivered by the successful read completions of a trace, in order. -/
def received : List Event → List Msg
  | [] => []
  | .read_done .success data _ :: es => data :: received es
  | _ :: es => received es

/-- Well-formed success-only traces: every read stores at most `msgbuf_size` bytes and
every write completion answers a buffer that was received and is not yet acknowledged
(`unacked` counts those). -/
def deliverable (unacked : Nat) : List Event → Bool
  | [] => true
  | .read_done _ data _ :: es =>
    decide (data.length ≤ msgbuf_size) && deliverable (unacked + 1) es
  | .write_done _ _ :: es => decide (0 < unacked) && deliverable (unacked - 1) es
  | .close :: es => deliverable unacked es

/-! ## Handlers on worker threads: the steps of one call may interleave -/

/-- Where a worker thread stands inside a call on the connection. The successful
branch of `ReadHandler` has three steps (re-arm under the lock, build the string from
`msgbuf_`, `EchoMsg` under the lock), `Close` has two (the exchange, then the rest). -/
inductive Frame where
  | read_entry (bytes_transferred : Nat)
  | read_rearmed (bytes_transferred : Nat)
  | read_copied (msg : Msg)
  | close_entry
  | close_exchanged (old : ConnStatus)
  | done
  deriving DecidableEq, Repr

/-- The next step of a thread, on the shared connection. -/
def Frame.advance (f : Frame) (c : Connection) : Option (Frame × Connection) :=
  match f with
  | .read_entry n => some (.read_rearmed n, c.rearm_receive)
  | .read_rearmed n => some (.read_copied (string_of c.msgbuf_ n), c)
  | .read_copied msg => some (.done, c.EchoMsg msg)
  | .close_entry => some (.close_exchanged c.Close_exchange.1, c.Close_exchange.2)
  | .close_exchanged old => some (.done, c.Close_body old)
  | .done => none

/-- A connection shared by worker threads. -/
structure Threaded where
  conn : Connection
  threads : List Frame

/-- What the scheduler can do next: complete the outstanding receive with `data` and
hand its handler to a new thread, run the handler of a successful write (its body is
one critical section), let a new thread call `Close()`, or let thread `i` take a step. -/
inductive Action where
  | receive (data : Msg)
  | write_ok (bytes_transferred : Nat)
  | call_close
  | advance (i : Nat)
  deriving DecidableEq, Repr

/-- One scheduler action; no result when the action is not possible. -/
def Threaded.step (t : Threaded) : Action → Option Threaded
  | .receive data =>
    if t.conn.enabled (.read_done .success data []) then
      some { conn := t.conn.complete (.read_done .success data []),
             threads := t.threads ++ [.read_entry data.length] }
    else
      none
  | .write_ok n => (t.conn.step (.write_done .success n)).map (fun c => { t with conn := c })
  | .call_close => some { t with threads := t.threads ++ [.close_entry] }
  | .advance i =>
    match t.threads[i]? with
    | none => none
    | some f => (f.advance t.conn).map (fun r => { conn := r.2, threads := t.threads.set i r.1 })

/-- The action lets an existing thread take a step. -/
def Action.is_advance : Action → Bool
  | .advance _ => true
  | _ => false

/-- A schedule, action by action. -/
def Threaded.run (t : Threaded) : List Action → Option Threaded
  | [] => some t
  | a :: as => (t.step a).bind (fun t1 => t1.run as)

/-- The buffers received in a schedule, in receive order. -/
def Action.received : List Action → List Msg
  | [] => []
  | .receive data :: as => data :: Action.received as
  | _ :: as => Action.received as

/-! ## Server -/

/-- Identity of a `Connection` object (what a `ConnPtr` points to). -/
abbrev ConnId := Nat

/-- Instrumented acceptor: open or closed, outstanding and issued `async_accept`. -/
structure Acceptor where
  is_open : Bool
  accepts_pending : Nat
  accepts_issued : Nat
  deriving DecidableEq, Repr

/-- Effect of `acceptor_.async_accept(*socket, handler)`. -/
def Acceptor.async_accept (a : Acceptor) : Acceptor :=
  { a with accepts_pending := a.accepts_pending + 1, accepts_issued := a.accepts_issued + 1 }

/-- Effect of `acceptor_.close(errcode)`. -/
def Acceptor.close (a : Acceptor) : Acceptor :=
  { a with is_open := false }

/-- The reactor takes one outstanding accept off the acceptor to run its handler. -/
def Acceptor.accept_done (a : Acceptor) : Acceptor :=
  { a with accepts_pending := a.accepts_pending - 1 }

/-- A pending `socket_timer->async_wait(bind(CheckSocketStatus, conn, socket_timer))`:
the connection it is bound to and the `expires_from_now` seconds. -/
structure Timer where
  conn : ConnId
  seconds : Nat
  deriving DecidableEq, Repr

/-- Member function `std::set<ConnPtr>::insert`. -/
def ConnSet.insert (s : List ConnId) (c : ConnId) : List ConnId :=
  if c ∈ s then s else c :: s

/-- Member function `std::set<ConnPtr>::erase` by key. -/
def ConnSet.erase (s : List ConnId) (c : ConnId) : List ConnId :=
  s.filter (fun d => d ≠ c)

/-- The class `EchoServer`: its data members `stopped_`, `conn_set_`, `acceptor_`, and
what the shared pointers and the `io_service` hold: the `Connection` objects by
identity (`allocated` of them created so far) and the pending timers. -/
structure EchoServer where
  stopped_ : Bool
  conn_set_ : List ConnId
  acceptor_ : Acceptor
  connections : ConnId → Connection
  allocated : Nat
  timers : List Timer

/-- The constructor `EchoServer(io_service) : stopped_(false)`. -/
def EchoServer.new (store : ConnId → Connection) : EchoServer :=
  { stopped_ := false, conn_set_ := [],
    acceptor_ := { is_open := false, accepts_pending := 0, accepts_issued := 0 },
    connections := store, allocated := 0, timers := [] }

/-- Method `EchoServer::Start` (lines 234-252); the outcomes of `from_string`, `open`,
`bind` and `listen` are inputs. -/
def EchoServer.Start (s : EchoServer) (address_ok open_ok bind_ok listen_ok : Bool) :
    EchoServer × Bool :=
  if !address_ok then (s, false)
  else if !open_ok then (s, false)
  else
    let s1 : EchoServer := { s with acceptor_ := { s.acceptor_ with is_open := true } }
    if !bind_ok || !listen_ok then
      ({ s1 with acceptor_ := s1.acceptor_.close }, false)
    else
      ({ s1 with acceptor_ := s1.acceptor_.async_accept }, true)

/-- A server on which `Start` has succeeded: constructed, listening, the first accept
outstanding. -/
def EchoServer.started (store : ConnId → Connection) : EchoServer :=
  ((EchoServer.new store).Start true true true true).1

/-- Method `EchoServer::Stop` (lines 253-260). -/
def EchoServer.Stop (s : EchoServer) : EchoServer :=
  { s with acceptor_ := s.acceptor_.close, stopped_ := true }

/-- Method `EchoServer::AcceptHandler` (lines 262-283); `uninit` is what the new
object's `msgbuf_` happens to hold. -/
def EchoServer.AcceptHandler (s : EchoServer) (socket : Socket) (error : ErrorCode)
    (uninit : Nat → Byte) : EchoServer :=
  match error with
  | .operation_aborted => s
  | .success =>
    let new_conn := s.allocated
    let s1 : EchoServer :=
      { s with allocated := s.allocated + 1,
               connections := Function.update s.connections new_conn
                 (Connection.new socket uninit).Start }
    let s2 : EchoServer := { s1 with conn_set_ := ConnSet.insert s1.conn_set_ new_conn }
    let s3 : EchoServer := { s2 with timers := s2.timers ++ [Timer.mk new_conn 1] }
    { s3 with acceptor_ := s3.acceptor_.async_accept }
  | .failure => { s with acceptor_ := s.acceptor_.async_accept }

/-- Method `EchoServer::CheckSocketStatus` (lines 284-307); no result when the
`assert(iter != conn_set_.end())` fails. -/
def EchoServer.CheckSocketStatus (s : EchoServer) (conn : ConnId) (_error : ErrorCode) :
    Option EchoServer :=
  if conn ∉ s.conn_set_ then none
  else if s.stopped_ then some s
  else if (s.connections conn).status = .kError then
    some { s with connections := Function.update s.connections conn (s.connections conn).Close,
                  conn_set_ := ConnSet.erase s.conn_set_ conn }
  else if (s.connections conn).status = .kClosed then
    some { s with conn_set_ := ConnSet.erase s.conn_set_ conn }
  else
    some { s with timers := s.timers ++ [Timer.mk conn 1] }

/-- What can happen to a server: the outstanding accept completes, a pending timer
fires, a connection sees one of its own events, or `Stop()` is called. -/
inductive ServerEvent where
  | accept_done (error : ErrorCode) (uninit : Nat → Byte)
  | tick (timer : Timer) (error : ErrorCode)
  | io (conn : ConnId) (e : Event)
  | stop

/-- One server event, its handler run to the end. -/
def EchoServer.step (s : EchoServer) : ServerEvent → Option EchoServer
  | .accept_done error uninit =>
    if 0 < s.acceptor_.accepts_pending then
      some (EchoServer.AcceptHandler { s with acceptor_ := s.acceptor_.accept_done }
        Socket.accepted error uninit)
    else
      none
  | .tick timer error =>
    if timer ∈ s.timers then
      EchoServer.CheckSocketStatus { s with timers := s.timers.erase timer } timer.conn error
    else
      none
  | .io conn e =>
    if conn < s.allocated then
      ((s.connections conn).step e).map
        (fun c => { s with connections := Function.update s.connections conn c })
    else
      none
  | .stop => some s.Stop

/-- The event is an accept completion whose outcome is not the cancellation. -/
def ServerEvent.accept_not_cancelled : ServerEvent → Bool
  | .accept_done .success _ => true
  | .accept_done .failure _ => true
  | _ => false

/-- A sequence of server events. -/
def EchoServer.run (s : EchoServer) : List ServerEvent → Option EchoServer
  | [] => some s
  | e :: es => (s.step e).bind (fun s1 => s1.run es)

/-- Bookkeeping invariant of the write chain while every completion succeeds: `rs`
are the buffers received so far. -/
structure ChainInv (c : Connection) (rs : List Msg) : Prop where
  one_receive : c.socket_.receives_pending = 1
  split : c.socket_.written ++ c.write_queue_.tail = rs
  idle : c.write_queue_ = [] → c.socket_.writes_pending = 0
  busy : c.write_queue_ ≠ [] → c.socket_.writes_pending = 1
  front : c.write_queue_ ≠ [] → c.socket_.written.getLast? = c.write_queue_.head?

/-- Invariant of the operations in flight, whatever the outcomes: at most one receive,
at most one write, and no write while the queue is empty. -/
structure FlightInv (c : Connection) : Prop where
  receives : c.socket_.receives_pending ≤ 1
  writes : c.socket_.writes_pending ≤ 1
  idle : c.write_queue_ = [] → c.socket_.writes_pending = 0

/-- A thread that won the exchange in `Close()` and has not closed the socket yet. -/
def Frame.close_owed : Frame → Bool
  | .close_exchanged old => decide (old ≠ .kClosed)
  | _ => false

/-- The thread is inside or at the start of a call of `Close()`, or has finished. -/
def Frame.in_close : Frame → Bool
  | .close_entry => true
  | .close_exchanged _ => true
  | .done => true
  | _ => false

/-- Invariant of concurrent `Close()` calls on a connection whose socket had been
closed `k` times before: until the first exchange nothing has happened; from then on
the status is `kClosed` and exactly one close is either done or owed by the winner. -/
structure CloseInv (k : Nat) (t : Threaded) : Prop where
  frames : ∀ f ∈ t.threads, f.in_close = true
  phase :
    (t.conn.status_ ≠ .kClosed ∧ (∀ f ∈ t.threads, f = .close_entry) ∧
        t.conn.socket_.close_calls = k) ∨
    (t.conn.status_ = .kClosed ∧
        t.threads.countP Frame.close_owed + t.conn.socket_.close_calls = k + 1)

/-- Invariant of the registry and the pending timers: every pending timer is bound to
a registered connection, no connection has two pending timers, and every registered
connection is an object that was created. -/
structure RegistryInv (s : EchoServer) : Prop where
  registered : ∀ t ∈ s.timers, t.conn ∈ s.conn_set_
  one_timer : (s.timers.map Timer.conn).Nodup
  created : ∀ c ∈ s.conn_set_, c < s.allocated

/-! # Theorems -/

/-! ## Echo order when handlers run one after the other -/

theorem string_of_store_received (msgbuf : Nat → Byte) (data : Msg) :
    string_of (store_received msgbuf data) data.length = data := by
  apply List.ext_getElem
  · simp [string_of]
  · intro i h1 h2
    simp [string_of, store_received, h2]

theorem store_received_nil (msgbuf : Nat → Byte) : store_received msgbuf [] = msgbuf := by
  funext i
  simp [store_received]

/-- What line 178 copies when the next receive has stored `b` on top of the `a` that
the handler was called for: `b`, then the rest of `a`. -/
theorem string_of_store_twice (msgbuf : Nat → Byte) (a b : Msg) (h : b.length ≤ a.length) :
    string_of (store_received (store_received msgbuf a) b) a.length =
      b ++ a.drop b.length := by
  apply List.ext_getElem
  · simp [string_of]
    omega
  · intro i h1 h2
    have hi : i < a.length := by simpa [string_of] using h1
    by_cases hb : i < b.length
    · simp [string_of, store_received, hb, List.getElem_append_left hb]
    · have hle : b.length ≤ i := Nat.le_of_not_lt hb
      simp [string_of, store_received, hb, hi, List.getElem_append_right hle]
      congr 1
      omega

theorem chainInv_start (msgbuf : Nat → Byte) :
    ChainInv (Connection.new Socket.accepted msgbuf).Start [] := by
  constructor <;> simp [Connection.new, Connection.Start, Socket.accepted, Socket.async_receive]

theorem chainInv_read (c : Connection) (rs : List Msg) (data : Msg) (h : ChainInv c rs)
    (hlen : data.length ≤ msgbuf_size) :
    ∃ c1, c.step (.read_done .success data []) = some c1 ∧ ChainInv c1 (rs ++ [data]) ∧
      c1.write_queue_.length = c.write_queue_.length + 1 := by
  obtain ⟨h1, h2, h3, h4, h5⟩ := h
  refine ⟨(c.complete (.read_done .success data [])).ReadHandler .success data.length [],
    ?_, ?_, ?_⟩
  · simp [Connection.step, Connection.enabled, h1, hlen]
  · cases hq : c.write_queue_ with
    | nil =>
      have hw := h3 hq
      simp [hq] at h2
      constructor <;>
        simp [Connection.complete, Connection.ReadHandler, Connection.rearm_receive,
          Connection.EchoMsg, Socket.async_receive, Socket.receive_done, Socket.async_write,
          string_of_store_received, store_received_nil, hq, h1, h2, hw]
    | cons q rest =>
      have hw := h4 (by simp [hq])
      have hf := h5 (by simp [hq])
      simp [hq] at h2 hf
      constructor <;>
        simp [Connection.complete, Connection.ReadHandler, Connection.rearm_receive,
          Connection.EchoMsg, Socket.async_receive, Socket.receive_done, Socket.async_write,
          string_of_store_received, store_received_nil, hq, h1, ← h2, hw, hf]
  · simp only [Connection.complete, Connection.ReadHandler, Connection.rearm_receive,
      Connection.EchoMsg]
    split <;> simp

theorem chainInv_write (c : Connection) (rs : List Msg) (n : Nat) (h : ChainInv c rs)
    (hq : c.write_queue_ ≠ []) :
    ∃ c1, c.step (.write_done .success n) = some c1 ∧ ChainInv c1 rs ∧
      c1.write_queue_.length = c.write_queue_.length - 1 := by
  obtain ⟨h1, h2, h3, h4, h5⟩ := h
  have hw := h4 hq
  have hf := h5 hq
  match hc : c.write_queue_ with
  | [] => exact absurd hc hq
  | [q] =>
    simp [hc] at h2
    refine ⟨{ (c.complete (.write_done .success n)) with write_queue_ := [] }, ?_, ?_, ?_⟩
    · simp [Connection.step, Connection.enabled, hw, Connection.WriteHandler,
        Connection.complete, hc]
    · constructor <;> simp [Connection.complete, Socket.write_done, h1, h2, hw]
    · simp
  | q :: q2 :: rest =>
    simp [hc] at h2 hf
    refine ⟨{ (c.complete (.write_done .success n)) with
        write_queue_ := q2 :: rest,
        socket_ := (c.complete (.write_done .success n)).socket_.async_write q2 }, ?_, ?_, ?_⟩
    · simp [Connection.step, Connection.enabled, hw, Connection.WriteHandler,
        Connection.complete, hc]
    · constructor <;>
        simp [Connection.complete, Socket.write_done, Socket.async_write, h1, ← h2, hw]
    · simp

theorem chain_run (evs : List Event) :
    ∀ (c : Connection) (rs : List Msg), ChainInv c rs → (∀ e ∈ evs, e.copied_first = true) →
      ((c.run evs).isSome = true ↔ deliverable c.write_queue_.length evs = true) ∧
      ∀ c1, c.run evs = some c1 → ChainInv c1 (rs ++ received evs) := by
  induction evs with
  | nil =>
    intro c rs h _
    simp [Connection.run, deliverable, received]
    exact h
  | cons e es ih =>
    intro c rs h hs
    have hes : ∀ e ∈ es, e.copied_first = true := fun e he => hs e (List.mem_cons_of_mem _ he)
    have he := hs e (List.mem_cons_self _ _)
    match e, he with
    | .read_done .success data [], _ =>
      by_cases hlen : data.length ≤ msgbuf_size
      · obtain ⟨c1, hstep, hinv, hq⟩ := chainInv_read c rs data h hlen
        have := ih c1 (rs ++ [data]) hinv hes
        simp [Connection.run, hstep, deliverable, received, hlen]
        simpa [hq] using this
      · simp [Connection.run, Connection.step, Connection.enabled, deliverable, hlen]
    | .write_done .success n, _ =>
      by_cases hq : c.write_queue_ = []
      · have hw := h.idle hq
        simp [Connection.run, Connection.step, Connection.enabled, deliverable, hq, hw]
      · obtain ⟨c1, hstep, hinv, hlen⟩ := chainInv_write c rs n h hq
        have := ih c1 rs hinv hes
        have hpos : 0 < c.write_queue_.length := List.length_pos.mpr hq
        simp [Connection.run, hstep, deliverable, received, hpos]
        simpa [hlen] using this

/-- The order is kept as long as no receive stores into `msgbuf_` before the handler
that issued it has read the buffer: along every trace of successful completions of
that kind, the buffers handed to `async_write` are a prefix of the buffers received,
and all of them whenever the queue is empty. -/
theorem echo_order_when_copied_first (msgbuf : Nat → Byte) (evs : List Event)
    (hs : ∀ e ∈ evs, e.copied_first = true) (c : Connection)
    (hrun : (Connection.new Socket.accepted msgbuf).Start.run evs = some c) :
    c.socket_.written <+: received evs ∧
    (c.write_queue_ = [] → c.socket_.written = received evs) := by
  have h := (chain_run evs _ [] (chainInv_start msgbuf) hs).2 c hrun
  simp only [List.nil_append] at h
  refine ⟨⟨c.write_queue_.tail, h.split⟩, ?_⟩
  intro hq
  have := h.split
  simpa [hq] using this

/-- Claim C1, the code at the failing input. Every completion succeeds and every
handler returns before the next one starts. The bytes `[1, 2]` and then `[3, 4]` are
received; the receive that the first handler issues at line 175 stores `[3, 4]`
before line 178 reads `msgbuf_`: the connection writes `[3, 4]` twice and `[1, 2]`
never. In the same way, for every payload of 20480 bytes received as 16384 and then
4096 bytes, the first buffer written is the last 4096 bytes of the payload followed by
its bytes 4096 to 16383, so the two writes concatenate to the payload only if its
first 4096 bytes equal its last 4096. -/
theorem echo_contents_lost_sequential (msgbuf : Nat → Byte) :
    (∀ e ∈ [Event.read_done .success [1, 2] [3, 4], Event.read_done .success [3, 4] [],
            Event.write_done .success 2, Event.write_done .success 2],
      e.successful = true) ∧
    received [Event.read_done .success [1, 2] [3, 4], Event.read_done .success [3, 4] [],
              Event.write_done .success 2, Event.write_done .success 2] = [[1, 2], [3, 4]] ∧
    ((Connection.new Socket.accepted msgbuf).Start.run
        [Event.read_done .success [1, 2] [3, 4], Event.read_done .success [3, 4] [],
         Event.write_done .success 2, Event.write_done .success 2]).map
      (fun c => (c.socket_.written, c.write_queue_)) = some ([[3, 4], [3, 4]], []) ∧
    (∀ payload : Msg, payload.length = 20480 →
      (∀ e ∈ [Event.read_done .success (payload.take 16384) (payload.drop 16384),
              Event.read_done .success (payload.drop 16384) [],
              Event.write_done .success 16384, Event.write_done .success 4096],
        e.successful = true) ∧
      received [Event.read_done .success (payload.take 16384) (payload.drop 16384),
                Event.read_done .success (payload.drop 16384) [],
                Event.write_done .success 16384, Event.write_done .success 4096] =
        [payload.take 16384, payload.drop 16384] ∧
      ∃ c, (Connection.new Socket.accepted msgbuf).Start.run
          [Event.read_done .success (payload.take 16384) (payload.drop 16384),
           Event.read_done .success (payload.drop 16384) [],
           Event.write_done .success 16384, Event.write_done .success 4096] = some c ∧
        c.write_queue_ = [] ∧
        c.socket_.written =
          [payload.drop 16384 ++ (payload.take 16384).drop 4096, payload.drop 16384] ∧
        (c.socket_.written.flatten = payload → payload.take 4096 = payload.drop 16384)) := by
  refine ⟨by decide, rfl, ?_, ?_⟩
  · simp [Connection.run, Connection.step, Connection.enabled, Connection.complete,
      Connection.ReadHandler, Connection.rearm_receive, Connection.EchoMsg,
      Connection.WriteHandler, Connection.new, Connection.Start, Socket.accepted,
      Socket.async_receive, Socket.receive_done, Socket.async_write, Socket.write_done,
      msgbuf_size, string_of, store_received, List.range_succ]
  · intro payload hlen
    have h1 : string_of
        (store_received (store_received msgbuf (payload.take 16384)) (payload.drop 16384))
        16384 = payload.drop 16384 ++ (payload.take 16384).drop 4096 := by
      have := string_of_store_twice msgbuf (payload.take 16384) (payload.drop 16384)
        (by simp [hlen])
      simpa [hlen] using this
    have h2 : ∀ m : Nat → Byte,
        string_of (store_received m (payload.drop 16384)) 4096 = payload.drop 16384 := by
      intro m
      have := string_of_store_received m (payload.drop 16384)
      simpa [hlen] using this
    have hrun : (Connection.new Socket.accepted msgbuf).Start.run
        [Event.read_done .success (payload.take 16384) (payload.drop 16384),
         Event.read_done .success (payload.drop 16384) [],
         Event.write_done .success 16384, Event.write_done .success 4096] =
        some
          { write_queue_ := [],
            status_ := .kConnected,
            msgbuf_ := store_received
              (store_received (store_received msgbuf (payload.take 16384))
                (payload.drop 16384)) (payload.drop 16384),
            socket_ :=
              { is_open := true, receives_pending := 1, receives_issued := 3,
                writes_pending := 0,
                written := [payload.drop 16384 ++ (payload.take 16384).drop 4096,
                            payload.drop 16384],
                close_calls := 0 } } := by
      simp [Connection.run, Connection.step, Connection.enabled, Connection.complete,
        Connection.ReadHandler, Connection.rearm_receive, Connection.EchoMsg,
        Connection.WriteHandler, Connection.new, Connection.Start, Socket.accepted,
        Socket.async_receive, Socket.receive_done, Socket.async_write, Socket.write_done,
        msgbuf_size, store_received_nil, hlen, h1, h2]
    refine ⟨by simp [Event.successful], by simp [received], _, hrun, rfl, rfl, ?_⟩
    intro hflat
    have hsplit : payload =
        payload.take 4096 ++ ((payload.take 16384).drop 4096 ++ payload.drop 16384) := by
      have e1 : payload.take 4096 ++ payload.drop 4096 = payload :=
        List.take_append_drop 4096 payload
      have e2 : payload.drop 4096 =
          (payload.take 16384).drop 4096 ++ payload.drop 16384 := by
        have e3 : payload.take 16384 ++ payload.drop 16384 = payload :=
          List.take_append_drop 16384 payload
        conv_lhs => rw [← e3]
        rw [List.drop_append_of_le_length (by simp [hlen])]
      rw [← e2, e1]
    have hflat1 : payload.drop 16384 ++
        ((payload.take 16384).drop 4096 ++ payload.drop 16384) = payload := by
      simpa using hflat
    exact (List.append_cancel_right (hflat1.trans hsplit)).symm

/-! ## Operations in flight -/

theorem flightInv_start (msgbuf : Nat → Byte) :
    FlightInv (Connection.new Socket.accepted msgbuf).Start := by
  constructor <;> simp [Connection.new, Connection.Start, Socket.accepted, Socket.async_receive]

theorem flightInv_step (c c1 : Connection) (e : Event) (h : FlightInv c)
    (hstep : c.step e = some c1) : FlightInv c1 := by
  obtain ⟨hr, hw, hi⟩ := h
  cases e with
  | read_done error data stored =>
    simp only [Connection.step] at hstep
    split at hstep
    · next hen =>
      simp [Connection.enabled] at hen
      cases hstep
      cases error with
      | success =>
        by_cases hq : c.write_queue_ = []
        · have := hi hq
          constructor <;>
            simp [Connection.complete, Connection.ReadHandler, Connection.rearm_receive,
              Connection.EchoMsg, Socket.async_receive, Socket.receive_done,
              Socket.async_write, hq, this]
          omega
        · constructor <;>
            simp [Connection.complete, Connection.ReadHandler, Connection.rearm_receive,
              Connection.EchoMsg, Socket.async_receive, Socket.receive_done,
              Socket.async_write, hq, hw]
          omega
      | operation_aborted =>
        constructor <;>
          simp [Connection.complete, Connection.ReadHandler, Socket.receive_done] <;>
          first | omega | exact hw | exact hi
      | failure =>
        constructor <;>
          simp [Connection.complete, Connection.ReadHandler, Socket.receive_done] <;>
          first | omega | exact hw | exact hi
    · cases hstep
  | write_done error n =>
    simp only [Connection.step] at hstep
    split at hstep
    · next hen =>
      simp [Connection.enabled] at hen
      have hw1 : c.socket_.writes_pending = 1 := by omega
      cases error with
      | success =>
        match hq : c.write_queue_ with
        | [] => exact absurd (hi hq) (by omega)
        | [q] =>
          simp [Connection.complete, Connection.WriteHandler, hq] at hstep
          subst hstep
          constructor <;> simp [Socket.write_done, hw1, hr]
        | q :: q2 :: rest =>
          simp [Connection.complete, Connection.WriteHandler, hq] at hstep
          subst hstep
          constructor <;> simp [Socket.write_done, Socket.async_write, hw1, hr]
      | operation_aborted =>
        simp [Connection.complete, Connection.WriteHandler] at hstep
        subst hstep
        constructor <;> simp [Socket.write_done, hw1, hr]
      | failure =>
        simp [Connection.complete, Connection.WriteHandler] at hstep
        subst hstep
        constructor <;> simp [Socket.write_done, hw1, hr]
    · cases hstep
  | close =>
    simp [Connection.step, Connection.enabled] at hstep
    subst hstep
    constructor <;>
      simp only [Connection.Close, Connection.Close_exchange, Connection.Close_body,
        atomic_exchange] <;> split <;> simp [Socket.close] <;>
      first | exact hr | exact hw | exact hi

theorem flightInv_run (evs : List Event) :
    ∀ c c1 : Connection, FlightInv c → c.run evs = some c1 → FlightInv c1 := by
  induction evs with
  | nil =>
    intro c c1 h hrun
    simp [Connection.run] at hrun
    exact hrun ▸ h
  | cons e es ih =>
    intro c c1 h hrun
    simp only [Connection.run] at hrun
    cases hstep : c.step e with
    | none => simp [hstep] at hrun
    | some c2 =>
      simp [hstep] at hrun
      exact ih c2 c1 (flightInv_step c c2 e h hstep) hrun

/-- Claim C2. In every state reached from a fresh connection by `Start()` and then any
sequence of read completions, write completions (any outcome, each taking the
operation that was in flight) and `Close()` calls, at most one receive and at most one
write are in flight. From such a state every completion that has its operation in
flight can be handled (`pop_front` never meets an empty queue); a step issues at most
one receive, and only when it is a successful read completion; it hands at most one
buffer to `async_write`, and only when it is a successful write completion or a
successful read completion whose `EchoMsg` takes the queue from empty to non-empty. -/
theorem at_most_one_in_flight (msgbuf : Nat → Byte) (evs : List Event) (c : Connection)
    (hrun : (Connection.new Socket.accepted msgbuf).Start.run evs = some c) :
    c.socket_.receives_pending ≤ 1 ∧ c.socket_.writes_pending ≤ 1 ∧
    (∀ e, c.enabled e = true → (c.step e).isSome = true) ∧
    (∀ e c1, c.step e = some c1 →
      c1.socket_.receives_issued ≤ c.socket_.receives_issued + 1 ∧
      (c1.socket_.receives_issued ≠ c.socket_.receives_issued →
        ∃ data stored, e = .read_done .success data stored) ∧
      c1.socket_.written.length ≤ c.socket_.written.length + 1 ∧
      (c1.socket_.written ≠ c.socket_.written →
        (∃ n, e = .write_done .success n) ∨
        (∃ data stored, e = .read_done .success data stored ∧ c.write_queue_ = [] ∧
          c1.write_queue_ ≠ []))) := by
  have hinv := flightInv_run evs _ c (flightInv_start msgbuf) hrun
  refine ⟨hinv.receives, hinv.writes, ?_, ?_⟩
  · intro e hen
    cases e with
    | read_done error data stored => simp [Connection.step, hen]
    | write_done error n =>
      have hpos : 0 < c.socket_.writes_pending := by simpa [Connection.enabled] using hen
      have hq : c.write_queue_ ≠ [] := fun h => by have := hinv.idle h; omega
      cases error with
      | success =>
        match hc : c.write_queue_ with
        | [] => exact absurd hc hq
        | [q] => simp [Connection.step, hen, Connection.WriteHandler, Connection.complete, hc]
        | q :: q2 :: rest =>
          simp [Connection.step, hen, Connection.WriteHandler, Connection.complete, hc]
      | operation_aborted => simp [Connection.step, hen, Connection.WriteHandler]
      | failure => simp [Connection.step, hen, Connection.WriteHandler]
    | close => simp [Connection.step, hen]
  · intro e c1 hstep
    cases e with
    | read_done error data stored =>
      simp only [Connection.step] at hstep
      split at hstep
      · cases hstep
        cases error with
        | success =>
          by_cases hq : c.write_queue_ = []
          · simp [Connection.complete, Connection.ReadHandler, Connection.rearm_receive,
              Connection.EchoMsg, Socket.async_receive, Socket.receive_done,
              Socket.async_write, hq]
          · simp [Connection.complete, Connection.ReadHandler, Connection.rearm_receive,
              Connection.EchoMsg, Socket.async_receive, Socket.receive_done,
              Socket.async_write, hq]
        | operation_aborted =>
          simp [Connection.complete, Connection.ReadHandler, Socket.receive_done]
        | failure =>
          simp [Connection.complete, Connection.ReadHandler, Socket.receive_done]
      · cases hstep
    | write_done error n =>
      simp only [Connection.step] at hstep
      split at hstep
      · cases error with
        | success =>
          match hq : c.write_queue_ with
          | [] => simp [Connection.complete, Connection.WriteHandler, hq] at hstep
          | [q] =>
            simp [Connection.complete, Connection.WriteHandler, hq] at hstep
            subst hstep
            simp [Socket.write_done]
          | q :: q2 :: rest =>
            simp [Connection.complete, Connection.WriteHandler, hq] at hstep
            subst hstep
            simp [Socket.write_done, Socket.async_write]
        | operation_aborted =>
          simp [Connection.complete, Connection.WriteHandler] at hstep
          subst hstep
          simp [Socket.write_done]
        | failure =>
          simp [Connection.complete, Connection.WriteHandler] at hstep
          subst hstep
          simp [Socket.write_done]
      · cases hstep
    | close =>
      simp [Connection.step, Connection.enabled] at hstep
      subst hstep
      simp only [Connection.Close, Connection.Close_exchange, Connection.Close_body,
        atomic_exchange]
      split <;> simp [Socket.close]

/-- Witness for claim C2: a read succeeds, the connection is closed, the write and the
re-armed read complete as cancelled; one more `Close()` follows. -/
theorem at_most_one_in_flight_witness :
    ∃ c, (Connection.new Socket.accepted (fun _ => 0)).Start.run
        [.read_done .success [7] [], .close, .write_done .operation_aborted 0,
         .read_done .operation_aborted [] [], .close] = some c ∧
      (c.socket_.receives_pending, c.socket_.writes_pending) = (0, 0) ∧
      c.socket_.receives_pending ≤ 1 ∧ c.socket_.writes_pending ≤ 1 :=
  ⟨_, rfl, rfl,
    (at_most_one_in_flight (fun _ => 0)
      [.read_done .success [7] [], .close, .write_done .operation_aborted 0,
       .read_done .operation_aborted [] [], .close] _ rfl).1,
    (at_most_one_in_flight (fun _ => 0)
      [.read_done .success [7] [], .close, .write_done .operation_aborted 0,
       .read_done .operation_aborted [] [], .close] _ rfl).2.1⟩

/-! ## Close -/

theorem close_status (c : Connection) : c.Close.status_ = .kClosed := by
  simp only [Connection.Close, Connection.Close_exchange, Connection.Close_body,
    atomic_exchange]
  split <;> rfl

theorem close_of_closed (c : Connection) (h : c.status_ = .kClosed) : c.Close = c := by
  cases c
  simp only at h
  subst h
  simp [Connection.Close, Connection.Close_exchange, Connection.Close_body, atomic_exchange]

theorem close_of_open (c : Connection) (h : c.status_ ≠ .kClosed) :
    c.Close = { c with status_ := .kClosed, socket_ := c.socket_.close } := by
  simp [Connection.Close, Connection.Close_exchange, Connection.Close_body, atomic_exchange, h]

theorem close_iterate (c : Connection) (n : Nat) :
    Connection.Close^[n + 1] c = c.Close := by
  induction n with
  | zero => rfl
  | succ n ih =>
    rw [Function.iterate_succ_apply', ih]
    exact close_of_closed _ (close_status c)

theorem countP_set_frame (p : Frame → Bool) (l : List Frame) :
    ∀ (i : Nat) (f g : Frame), l[i]? = some f →
      (l.set i g).countP p + (if p f then 1 else 0) = l.countP p + (if p g then 1 else 0) := by
  induction l with
  | nil => intro i f g h; simp at h
  | cons a l ih =>
    intro i f g h
    cases i with
    | zero =>
      simp at h
      subst h
      simp only [List.set_cons_zero, List.countP_cons]
      omega
    | succ i =>
      simp at h
      have := ih i f g (by simpa using h)
      simp only [List.set_cons_succ, List.countP_cons]
      omega

theorem closeInv_advance (k : Nat) (t t1 : Threaded) (i : Nat) (h : CloseInv k t)
    (hstep : t.step (.advance i) = some t1) : CloseInv k t1 := by
  obtain ⟨hf, hp⟩ := h
  simp only [Threaded.step] at hstep
  cases hget : t.threads[i]? with
  | none => simp [hget] at hstep
  | some f =>
    have hmem : f ∈ t.threads := List.getElem?_mem hget
    have hin := hf f hmem
    simp only [hget] at hstep
    cases f with
    | read_entry n => simp [Frame.in_close] at hin
    | read_rearmed n => simp [Frame.in_close] at hin
    | read_copied m => simp [Frame.in_close] at hin
    | done => simp [Frame.advance] at hstep
    | close_entry =>
      simp [Frame.advance] at hstep
      subst hstep
      have hcount := countP_set_frame Frame.close_owed t.threads i .close_entry
        (.close_exchanged t.conn.status_) hget
      constructor
      · intro g hg
        rcases List.mem_or_eq_of_mem_set hg with hg | rfl
        · exact hf g hg
        · rfl
      · right
        refine ⟨by simp [Connection.Close_exchange, atomic_exchange], ?_⟩
        rcases hp with ⟨hs, hall, hk⟩ | ⟨hs, hk⟩
        · have hzero : t.threads.countP Frame.close_owed = 0 := by
            rw [List.countP_eq_zero]
            intro g hg
            rw [hall g hg]
            simp [Frame.close_owed]
          simp [Frame.close_owed, hs, hzero] at hcount
          simp [Connection.Close_exchange, atomic_exchange, hcount, hk]
          omega
        · simp [Frame.close_owed, hs] at hcount
          simp [Connection.Close_exchange, atomic_exchange, hs, hcount, hk]
    | close_exchanged old =>
      simp [Frame.advance] at hstep
      subst hstep
      have hcount := countP_set_frame Frame.close_owed t.threads i (.close_exchanged old)
        .done hget
      constructor
      · intro g hg
        rcases List.mem_or_eq_of_mem_set hg with hg | rfl
        · exact hf g hg
        · rfl
      · rcases hp with ⟨_, hall, _⟩ | ⟨hs, hk⟩
        · exact absurd (hall _ hmem) (by simp)
        · right
          by_cases hold : old = .kClosed
          · simp [Frame.close_owed, hold] at hcount
            simp [Connection.Close_body, hold, hs, hcount, hk]
          · simp [Frame.close_owed, hold] at hcount
            simp [Connection.Close_body, hold, hs, Socket.close]
            omega

theorem closeInv_run (k : Nat) (sched : List Action) :
    ∀ t t1 : Threaded, CloseInv k t → (∀ a ∈ sched, a.is_advance = true) →
      t.run sched = some t1 → CloseInv k t1 ∧ t1.threads.length = t.threads.length := by
  induction sched with
  | nil =>
    intro t t1 h _ hrun
    simp [Threaded.run] at hrun
    subst hrun
    exact ⟨h, rfl⟩
  | cons a as ih =>
    intro t t1 h hs hrun
    obtain ⟨i, rfl⟩ : ∃ i, a = Action.advance i := by
      have := hs a (List.mem_cons_self _ _)
      cases a <;> simp [Action.is_advance] at this ⊢
    simp only [Threaded.run] at hrun
    cases hstep : t.step (.advance i) with
    | none => simp [hstep] at hrun
    | some t2 =>
      simp [hstep] at hrun
      have h2 := closeInv_advance k t t2 i h hstep
      have hlen : t2.threads.length = t.threads.length := by
        simp only [Threaded.step] at hstep
        cases hget : t.threads[i]? with
        | none => simp [hget] at hstep
        | some f =>
          simp only [hget] at hstep
          cases hadv : f.advance t.conn with
          | none => simp [hadv] at hstep
          | some r =>
            simp [hadv] at hstep
            subst hstep
            simp
      have := ih t2 t1 h2 (fun a ha => hs a (List.mem_cons_of_mem _ ha)) hrun
      exact ⟨this.1, this.2.trans hlen⟩

/-- Claim C3. `Close()` is idempotent. On a connection in status `kConnected`, `N ≥ 1`
calls one after the other leave the status `kClosed` and close the socket exactly
once; `Close()` on a connection already `kClosed` closes nothing and changes nothing,
so `Close(); Close()` ends where `Close()` ends. The same holds when the `N` calls run
on `N` threads and their steps (the exchange as one step, then the rest of the body)
interleave in any order: the socket is never closed more than once, and once every
call has returned the status is `kClosed` and the socket was closed exactly once; a
call that has not returned can always take its next step. -/
theorem close_idempotent (c : Connection) :
    (∀ N, 1 ≤ N → c.status_ = .kConnected →
      Connection.Close^[N] c = { c with status_ := .kClosed, socket_ := c.socket_.close } ∧
      (Connection.Close^[N] c).status_ = .kClosed ∧
      (Connection.Close^[N] c).socket_.close_calls = c.socket_.close_calls + 1) ∧
    (c.status_ = .kClosed → c.Close = c) ∧
    c.Close.Close = c.Close ∧
    (∀ (N : Nat) (sched : List Action) (t : Threaded), 1 ≤ N → c.status_ = .kConnected →
      (∀ a ∈ sched, a.is_advance = true) →
      Threaded.run { conn := c, threads := List.replicate N .close_entry } sched = some t →
      t.conn.socket_.close_calls ≤ c.socket_.close_calls + 1 ∧
      ((∀ f ∈ t.threads, f = .done) →
        t.conn.status_ = .kClosed ∧
        t.conn.socket_.close_calls = c.socket_.close_calls + 1)) ∧
    (∀ (t : Threaded) (i : Nat) (f : Frame), t.threads[i]? = some f → f ≠ .done →
      (t.step (.advance i)).isSome = true) := by
  refine ⟨?_, close_of_closed c, close_of_closed _ (close_status c), ?_, ?_⟩
  · intro N hN hc
    obtain ⟨n, rfl⟩ : ∃ n, N = n + 1 := ⟨N - 1, by omega⟩
    rw [close_iterate, close_of_open c (by simp [hc])]
    simp [Socket.close]
  · intro N sched t hN hc hs hrun
    have h0 : CloseInv c.socket_.close_calls
        { conn := c, threads := List.replicate N .close_entry } := by
      constructor
      · intro f hf
        rw [List.eq_of_mem_replicate hf]
        rfl
      · left
        exact ⟨by simp [hc], fun f hf => List.eq_of_mem_replicate hf, rfl⟩
    obtain ⟨⟨_, hp⟩, hlen⟩ := closeInv_run _ sched _ t h0 hs hrun
    simp only [List.length_replicate] at hlen
    rcases hp with ⟨_, hall, hk⟩ | ⟨hst, hk⟩
    · refine ⟨by omega, ?_⟩
      intro hdone
      exfalso
      have hne : t.threads ≠ [] := by
        intro h
        rw [h] at hlen
        simp at hlen
        omega
      obtain ⟨f, hf⟩ := List.exists_mem_of_ne_nil _ hne
      have h1 := hall f hf
      have h2 := hdone f hf
      rw [h1] at h2
      cases h2
    · refine ⟨by omega, ?_⟩
      intro hdone
      have hzero : t.threads.countP Frame.close_owed = 0 := by
        rw [List.countP_eq_zero]
        intro g hg
        rw [hdone g hg]
        simp [Frame.close_owed]
      exact ⟨hst, by omega⟩
  · intro t i f hget hf
    cases f <;> simp [Threaded.step, hget, Frame.advance] at hf ⊢

/-- Witness for claim C3: three sequential calls on a fresh connection, and three
threads whose exchanges all happen before any of them goes on. -/
theorem close_idempotent_witness :
    (Connection.Close^[3] (Connection.new Socket.accepted (fun _ => 0))).socket_.close_calls
      = 0 + 1 ∧
    ∃ t, Threaded.run
        { conn := Connection.new Socket.accepted (fun _ => 0),
          threads := List.replicate 3 .close_entry }
        [.advance 2, .advance 0, .advance 1, .advance 1, .advance 2, .advance 0] = some t ∧
      t.threads = [.done, .done, .done] ∧
      t.conn.status_ = .kClosed ∧ t.conn.socket_.close_calls = 0 + 1 :=
  ⟨((close_idempotent (Connection.new Socket.accepted (fun _ => 0))).1 3 (by decide) rfl).2.2,
   _, rfl, rfl,
   ((close_idempotent (Connection.new Socket.accepted (fun _ => 0))).2.2.2.1 3
      [.advance 2, .advance 0, .advance 1, .advance 1, .advance 2, .advance 0] _
      (by decide) rfl (by decide) rfl).2 (by decide)⟩

/-! ## Status transitions -/

theorem readHandler_status (c : Connection) (error : ErrorCode) (n : Nat) (stored : Msg) :
    (c.ReadHandler error n stored).status_ = c.status_ ∨
    (c.status_ = .kConnected ∧ (c.ReadHandler error n stored).status_ = .kError) := by
  cases error with
  | success =>
    left
    simp only [Connection.ReadHandler, Connection.rearm_receive, Connection.EchoMsg]
    split <;> rfl
  | operation_aborted => exact Or.inl rfl
  | failure =>
    by_cases h : c.status_ = .kConnected
    · right; simp [Connection.ReadHandler, compare_exchange_strong, h]
    · left; simp [Connection.ReadHandler, compare_exchange_strong, h]

theorem writeHandler_status (c c1 : Connection) (error : ErrorCode) (n : Nat)
    (h1 : c.WriteHandler error n = some c1) :
    c1.status_ = c.status_ ∨ (c.status_ = .kConnected ∧ c1.status_ = .kError) := by
  cases error with
  | success =>
    left
    match hq : c.write_queue_ with
    | [] => simp [Connection.WriteHandler, hq] at h1
    | [q] => simp [Connection.WriteHandler, hq] at h1; subst h1; rfl
    | q :: q2 :: rest => simp [Connection.WriteHandler, hq] at h1; subst h1; rfl
  | operation_aborted =>
    simp [Connection.WriteHandler] at h1
    exact Or.inl (h1 ▸ rfl)
  | failure =>
    simp [Connection.WriteHandler] at h1
    subst h1
    by_cases h : c.status_ = .kConnected
    · right; simp [compare_exchange_strong, h]
    · left; simp [compare_exchange_strong, h]

theorem step_status (c c1 : Connection) (e : Event) (h : c.step e = some c1) :
    c1.status_ = c.status_ ∨ (c.status_ = .kConnected ∧ c1.status_ = .kError) ∨
    (e = .close ∧ c1.status_ = .kClosed) := by
  cases e with
  | read_done error data stored =>
    simp only [Connection.step] at h
    split at h
    · cases h
      rcases readHandler_status (c.complete (.read_done error data stored)) error data.length
          stored with h | h
      · exact Or.inl h
      · exact Or.inr (Or.inl h)
    · cases h
  | write_done error n =>
    simp only [Connection.step] at h
    split at h
    · rcases writeHandler_status _ c1 error n h with h | h
      · exact Or.inl h
      · exact Or.inr (Or.inl h)
    · cases h
  | close =>
    simp [Connection.step, Connection.enabled] at h
    subst h
    exact Or.inr (Or.inr ⟨rfl, close_status c⟩)

theorem run_status (evs : List Event) :
    ∀ c c1 : Connection, c.run evs = some c1 → c.status_.toNat ≤ c1.status_.toNat := by
  induction evs with
  | nil =>
    intro c c1 h
    simp [Connection.run] at h
    subst h
    exact Nat.le_refl _
  | cons e es ih =>
    intro c c1 h
    simp only [Connection.run] at h
    cases hstep : c.step e with
    | none => simp [hstep] at h
    | some c2 =>
      simp [hstep] at h
      have h2 := ih c2 c1 h
      have h1 : c.status_.toNat ≤ c2.status_.toNat := by
        rcases step_status c c2 e hstep with h | ⟨h, h'⟩ | ⟨_, h⟩
        · rw [h]
        · rw [h, h']; decide
        · rw [h]; cases c.status_ <;> decide
      exact Nat.le_trans h1 h2

/-- Counterexample to claim C4 as stated: `kError` is not absorbing. A started connection
whose read fails is in status `kError`, and `Close()` then takes it to `kClosed`; so
does the health-check tick of a running server for a registered connection in status
`kError`. -/
theorem status_error_is_left :
    ((Connection.new Socket.accepted (fun _ => 0)).Start.run
        [.read_done .failure [] []]).map (fun c => c.status_) = some .kError ∧
    ((Connection.new Socket.accepted (fun _ => 0)).Start.run
        [.read_done .failure [] [], .close]).map (fun c => c.status_) = some .kClosed ∧
    ((EchoServer.started (fun _ => Connection.new Socket.accepted (fun _ => 0))).run
        [.accept_done .success (fun _ => 0), .io 0 (.read_done .failure [] [])]).map
      (fun s => (s.connections 0).status_) = some .kError ∧
    ((EchoServer.started (fun _ => Connection.new Socket.accepted (fun _ => 0))).run
        [.accept_done .success (fun _ => 0), .io 0 (.read_done .failure [] []),
         .tick (Timer.mk 0 1) .success]).map
      (fun s => (s.connections 0).status_) = some .kClosed := by
  refine ⟨by decide, by decide, by decide, by decide⟩

theorem checkSocketStatus_status (s s1 : EchoServer) (conn : ConnId) (error : ErrorCode)
    (h : s.CheckSocketStatus conn error = some s1) (d : ConnId) :
    (s1.connections d).status_ = (s.connections d).status_ ∨
    (d = conn ∧ (s.connections d).status_ = .kError ∧
      (s1.connections d).status_ = .kClosed) := by
  simp only [EchoServer.CheckSocketStatus] at h
  split at h
  · cases h
  · split at h
    · cases h; exact Or.inl rfl
    · split at h
      · next herr =>
        cases h
        by_cases hd : d = conn
        · subst hd
          right
          exact ⟨rfl, herr, by simp [close_status]⟩
        · left
          simp [Function.update, hd]
      · split at h <;> cases h <;> exact Or.inl rfl

/-- Claim C4, amended. A connection starts in `kConnected`. `ReadHandler` and
`WriteHandler` either leave the status alone or take it from `kConnected` to `kError`;
`Close()` always ends in `kClosed` (from `kConnected` and from `kError` alike); a
health-check tick changes the status of no connection except that it takes the ticked
one from `kError` to `kClosed`. Hence along every sequence of events the status never
decreases in the order `kConnected < kError < kClosed`: `kClosed` is absorbing, and a
connection in `kError` never returns to `kConnected` (it can still become `kClosed`). -/
theorem status_monotone (c : Connection) :
    (∀ socket msgbuf, (Connection.new socket msgbuf).status_ = .kConnected) ∧
    c.Close.status_ = .kClosed ∧
    (∀ error n stored, (c.ReadHandler error n stored).status_ = c.status_ ∨
      (c.status_ = .kConnected ∧ (c.ReadHandler error n stored).status_ = .kError)) ∧
    (∀ error n c1, c.WriteHandler error n = some c1 →
      c1.status_ = c.status_ ∨ (c.status_ = .kConnected ∧ c1.status_ = .kError)) ∧
    (∀ (s s1 : EchoServer) (conn : ConnId) (error : ErrorCode),
      s.CheckSocketStatus conn error = some s1 → ∀ d,
        (s1.connections d).status_ = (s.connections d).status_ ∨
        (d = conn ∧ (s.connections d).status_ = .kError ∧
          (s1.connections d).status_ = .kClosed)) ∧
    (∀ evs c1, c.run evs = some c1 →
      c.status_.toNat ≤ c1.status_.toNat ∧
      (c.status_ = .kClosed → c1.status_ = .kClosed) ∧
      (c.status_ = .kError → c1.status_ ≠ .kConnected)) := by
  refine ⟨fun _ _ => rfl, close_status c, readHandler_status c,
    fun error n c1 h => writeHandler_status c c1 error n h,
    fun s s1 conn error h d => checkSocketStatus_status s s1 conn error h d, ?_⟩
  intro evs c1 hrun
  have h := run_status evs c c1 hrun
  refine ⟨h, ?_, ?_⟩
  · intro hc
    rw [hc] at h
    cases hs : c1.status_ <;> simp [hs, ConnStatus.toNat] at h ⊢
  · intro hc
    rw [hc] at h
    cases hs : c1.status_ <;> simp [hs, ConnStatus.toNat] at h ⊢

/-- Witness for claim C4: a started connection that was closed stays `kClosed` when the
failure of its outstanding read is handled afterwards. -/
theorem status_monotone_witness :
    ∃ c1, (Connection.new Socket.accepted (fun _ => 0)).Start.Close.run
        [.read_done .failure [] []] = some c1 ∧ c1.status_ = .kClosed :=
  ⟨_, rfl,
    ((status_monotone (Connection.new Socket.accepted (fun _ => 0)).Start.Close).2.2.2.2.2
      [.read_done .failure [] []] _ rfl).2.1 rfl⟩

/-! ## Health check -/

theorem connSet_mem_erase (l : List ConnId) (c d : ConnId) :
    d ∈ ConnSet.erase l c ↔ d ∈ l ∧ d ≠ c := by
  simp [ConnSet.erase]

theorem connSet_mem_insert (l : List ConnId) (c d : ConnId) :
    d ∈ ConnSet.insert l c ↔ d = c ∨ d ∈ l := by
  unfold ConnSet.insert
  split
  · next h =>
    constructor
    · exact Or.inr
    · rintro (rfl | h')
      · exact h
      · exact h'
  · simp

/-- Claim C5. One health-check tick for a registered connection `conn` always has a
result, and which of the four cases applies is decided in this order. Stopped: the
registry, the connection and the pending timers are as before. Otherwise status
`kError`: `Close()` is called on the connection, which is then `kClosed`, it is erased
from the registry and no timer is armed. Otherwise status `kClosed`: it is erased from
the registry, the connection object is untouched (no close call) and no timer is
armed. Otherwise (`kConnected`): registry and connection are as before and the timer
is armed again for one second. In every case membership and state of all other
connections, `stopped_` and the acceptor are unchanged. -/
theorem health_check_tick (s : EchoServer) (conn : ConnId) (error : ErrorCode)
    (hreg : conn ∈ s.conn_set_) :
    ∃ s1, s.CheckSocketStatus conn error = some s1 ∧
      (∀ d, d ≠ conn →
        (d ∈ s1.conn_set_ ↔ d ∈ s.conn_set_) ∧ s1.connections d = s.connections d) ∧
      s1.stopped_ = s.stopped_ ∧ s1.acceptor_ = s.acceptor_ ∧
      (s.stopped_ = true →
        s1.conn_set_ = s.conn_set_ ∧ s1.connections conn = s.connections conn ∧
        s1.timers = s.timers) ∧
      (s.stopped_ = false → (s.connections conn).status_ = .kError →
        s1.connections conn = (s.connections conn).Close ∧
        (s1.connections conn).status_ = .kClosed ∧
        (s1.connections conn).socket_.close_calls =
          (s.connections conn).socket_.close_calls + 1 ∧
        conn ∉ s1.conn_set_ ∧ s1.timers = s.timers) ∧
      (s.stopped_ = false → (s.connections conn).status_ = .kClosed →
        s1.connections conn = s.connections conn ∧
        conn ∉ s1.conn_set_ ∧ s1.timers = s.timers) ∧
      (s.stopped_ = false → (s.connections conn).status_ = .kConnected →
        s1.conn_set_ = s.conn_set_ ∧ s1.connections conn = s.connections conn ∧
        s1.timers = s.timers ++ [Timer.mk conn 1]) := by
  cases hstop : s.stopped_ with
  | true =>
    refine ⟨s, by simp [EchoServer.CheckSocketStatus, hreg, hstop], ?_⟩
    simp [hstop]
  | false =>
    cases hst : (s.connections conn).status_ with
    | kError =>
      refine ⟨{ s with
          connections := Function.update s.connections conn (s.connections conn).Close,
          conn_set_ := ConnSet.erase s.conn_set_ conn }, ?_, ?_⟩
      · simp [EchoServer.CheckSocketStatus, hreg, hstop, Connection.status, hst]
      · refine ⟨?_, hstop.symm ▸ rfl, rfl, by simp, ?_, by simp, by simp⟩
        · intro d hd
          simp [connSet_mem_erase, hd, Function.update]
        · intro _ _
          refine ⟨by simp, by simp [close_status], ?_, by simp [connSet_mem_erase], rfl⟩
          simp [close_of_open _ (show (s.connections conn).status_ ≠ .kClosed by simp [hst]),
            Socket.close]
    | kClosed =>
      refine ⟨{ s with conn_set_ := ConnSet.erase s.conn_set_ conn }, ?_, ?_⟩
      · simp [EchoServer.CheckSocketStatus, hreg, hstop, Connection.status, hst]
      · refine ⟨?_, hstop.symm ▸ rfl, rfl, by simp, by simp, ?_, by simp⟩
        · intro d hd
          simp [connSet_mem_erase, hd]
        · intro _ _
          exact ⟨rfl, by simp [connSet_mem_erase], rfl⟩
    | kConnected =>
      refine ⟨{ s with timers := s.timers ++ [Timer.mk conn 1] }, ?_, ?_⟩
      · simp [EchoServer.CheckSocketStatus, hreg, hstop, Connection.status, hst]
      · refine ⟨?_, hstop.symm ▸ rfl, rfl, by simp, by simp, by simp, ?_⟩
        · intro d _
          exact ⟨Iff.rfl, rfl⟩
        · intro _ _
          exact ⟨rfl, rfl, rfl⟩

/-- Witness for claim C5: a running server with connections 0 (in `kError`) and 1
registered; the tick for 0 closes it and erases it, 1 stays registered. -/
theorem health_check_tick_witness :
    ∃ s1, EchoServer.CheckSocketStatus
        { stopped_ := false, conn_set_ := [1, 0],
          acceptor_ := { is_open := true, accepts_pending := 1, accepts_issued := 3 },
          connections := fun d =>
            if d = 0 then
              { (Connection.new Socket.accepted (fun _ => 0)).Start with status_ := .kError }
            else (Connection.new Socket.accepted (fun _ => 0)).Start,
          allocated := 2, timers := [Timer.mk 1 1] } 0 .success = some s1 ∧
      s1.conn_set_ = [1] ∧ (s1.connections 0).status_ = .kClosed ∧
      (s1.connections 0).socket_.close_calls = 1 ∧ s1.timers = [Timer.mk 1 1] := by
  obtain ⟨s1, h, _, _, _, _, h2, _⟩ := health_check_tick
    { stopped_ := false, conn_set_ := [1, 0],
      acceptor_ := { is_open := true, accepts_pending := 1, accepts_issued := 3 },
      connections := fun d =>
        if d = 0 then
          { (Connection.new Socket.accepted (fun _ => 0)).Start with status_ := .kError }
        else (Connection.new Socket.accepted (fun _ => 0)).Start,
      allocated := 2, timers := [Timer.mk 1 1] } 0 .success (by decide)
  refine ⟨s1, h, ?_, (h2 rfl rfl).2.1, (h2 rfl rfl).2.2.1, (h2 rfl rfl).2.2.2.2⟩
  simp [EchoServer.CheckSocketStatus, Connection.status] at h
  subst h
  decide

/-! ## After Stop -/

/-- Once `stopped_` is true it stays true, and every event other than an accept
completion with the success or another error outcome issues no `async_accept` and
leaves the registry as it was. -/
theorem stopped_step (s s1 : EchoServer) (e : ServerEvent) (hs : s.stopped_ = true)
    (hstep : s.step e = some s1) :
    s1.stopped_ = true ∧
    (e.accept_not_cancelled = false →
      s1.acceptor_.accepts_issued = s.acceptor_.accepts_issued ∧
      s1.conn_set_ = s.conn_set_) := by
  cases e with
  | accept_done error uninit =>
    simp only [EchoServer.step] at hstep
    split at hstep
    · cases hstep
      cases error with
      | success => simp [EchoServer.AcceptHandler, hs, ServerEvent.accept_not_cancelled]
      | operation_aborted =>
        simp [EchoServer.AcceptHandler, hs, Acceptor.accept_done]
      | failure => simp [EchoServer.AcceptHandler, hs, ServerEvent.accept_not_cancelled]
    · cases hstep
  | tick timer error =>
    simp only [EchoServer.step] at hstep
    split at hstep
    · simp only [EchoServer.CheckSocketStatus, hs] at hstep
      split at hstep
      · cases hstep
      · simp at hstep
        subst hstep
        simp [hs]
    · cases hstep
  | io conn e =>
    simp only [EchoServer.step] at hstep
    split at hstep
    · cases hc : (s.connections conn).step e with
      | none => simp [hc] at hstep
      | some c =>
        simp [hc] at hstep
        subst hstep
        simp [hs]
    · cases hstep
  | stop =>
    simp [EchoServer.step] at hstep
    subst hstep
    simp [EchoServer.Stop, Acceptor.close]

theorem stopped_run (evs : List ServerEvent) :
    ∀ s s1 : EchoServer, s.stopped_ = true →
      (∀ e ∈ evs, e.accept_not_cancelled = false) → s.run evs = some s1 →
      s1.stopped_ = true ∧ s1.acceptor_.accepts_issued = s.acceptor_.accepts_issued ∧
      s1.conn_set_ = s.conn_set_ := by
  induction evs with
  | nil =>
    intro s s1 hs _ hrun
    simp [EchoServer.run] at hrun
    subst hrun
    exact ⟨hs, rfl, rfl⟩
  | cons e es ih =>
    intro s s1 hs hev hrun
    simp only [EchoServer.run] at hrun
    cases hstep : s.step e with
    | none => simp [hstep] at hrun
    | some s2 =>
      simp [hstep] at hrun
      obtain ⟨h1, h2⟩ := stopped_step s s2 e hs hstep
      obtain ⟨h3, h4⟩ := h2 (hev e (List.mem_cons_self _ _))
      obtain ⟨h5, h6, h7⟩ := ih s2 s1 h1 (fun e he => hev e (List.mem_cons_of_mem _ he)) hrun
      exact ⟨h5, h6.trans h3, h7.trans h4⟩

/-- Claim C6, the code at the failing input. `Stop()` has run on a started server
(`stopped_` is true, the acceptor is closed, the first accept is still outstanding).
When that accept completes with the success outcome, `AcceptHandler` registers
connection 0, arms its timer and issues a second `async_accept` on the closed
acceptor; when it completes with another error outcome, a second `async_accept` is
issued as well, and a third after the next such completion. -/
theorem accept_after_stop_not_gated :
    (EchoServer.started (fun _ => Connection.new Socket.accepted (fun _ => 0))).Stop.stopped_
      = true ∧
    (EchoServer.started (fun _ => Connection.new Socket.accepted (fun _ => 0))).Stop.conn_set_
      = [] ∧
    (EchoServer.started
        (fun _ => Connection.new Socket.accepted (fun _ => 0))).Stop.acceptor_
      = { is_open := false, accepts_pending := 1, accepts_issued := 1 } ∧
    ((EchoServer.started (fun _ => Connection.new Socket.accepted (fun _ => 0))).Stop.run
        [.accept_done .success (fun _ => 0)]).map
      (fun s => (s.stopped_, s.conn_set_, s.timers, s.acceptor_)) =
      some (true, [0], [Timer.mk 0 1],
        { is_open := false, accepts_pending := 1, accepts_issued := 2 }) ∧
    ((EchoServer.started (fun _ => Connection.new Socket.accepted (fun _ => 0))).Stop.run
        [.accept_done .failure (fun _ => 0)]).map
      (fun s => (s.stopped_, s.conn_set_, s.acceptor_)) =
      some (true, [], { is_open := false, accepts_pending := 1, accepts_issued := 2 }) ∧
    ((EchoServer.started (fun _ => Connection.new Socket.accepted (fun _ => 0))).Stop.run
        [.accept_done .failure (fun _ => 0), .accept_done .failure (fun _ => 0)]).map
      (fun s => (s.stopped_, s.conn_set_, s.acceptor_)) =
      some (true, [], { is_open := false, accepts_pending := 1, accepts_issued := 3 }) := by
  refine ⟨by decide, by decide, by decide, by decide, by decide, by decide⟩

/-! ## Start -/

theorem start_iterate (c : Connection) (k : Nat) :
    (Connection.Start^[k] c) =
      { c with socket_ :=
          { c.socket_ with receives_pending := c.socket_.receives_pending + k,
                           receives_issued := c.socket_.receives_issued + k } } := by
  induction k with
  | zero => rfl
  | succ k ih =>
    rw [Function.iterate_succ_apply', ih]
    simp [Connection.Start, Socket.async_receive, Nat.add_assoc]

/-- Counterexample to claim C7 as stated: a second `Start()` on a fresh connection is
not a no-op; it issues a second read, so two reads are outstanding. -/
theorem second_start_issues_second_read :
    (Connection.new Socket.accepted (fun _ => 0)).Start.socket_.receives_pending = 1 ∧
    (Connection.new Socket.accepted (fun _ => 0)).Start.Start.socket_.receives_pending = 2 ∧
    (Connection.new Socket.accepted (fun _ => 0)).Start.Start.socket_.receives_issued = 2 ∧
    (Connection.new Socket.accepted (fun _ => 0)).Start.Start.socket_ ≠
      (Connection.new Socket.accepted (fun _ => 0)).Start.socket_ := by
  refine ⟨by decide, by decide, by decide, by decide⟩

/-- Claim C7, amended. `Start()` issues one read each time it is called and changes
nothing else; there is no already-started test. On a fresh connection the first call
leaves exactly one read outstanding, and `k` calls with no completion in between
leave `k` reads outstanding, which is exactly one only for `k = 1`. `AcceptHandler`
calls it once on the connection it creates. -/
theorem start_issues_one_read_per_call (c : Connection) :
    c.Start = { c with socket_ := c.socket_.async_receive } ∧
    c.Start.socket_.receives_pending = c.socket_.receives_pending + 1 ∧
    c.Start.socket_.receives_issued = c.socket_.receives_issued + 1 ∧
    (∀ msgbuf, (Connection.new Socket.accepted msgbuf).Start.socket_.receives_pending = 1) ∧
    (∀ msgbuf k,
      (Connection.Start^[k] (Connection.new Socket.accepted msgbuf)).socket_.receives_pending
        = k) ∧
    (∀ msgbuf k,
      (Connection.Start^[k] (Connection.new Socket.accepted msgbuf)).socket_.receives_pending
        = 1 ↔ k = 1) ∧
    (∀ (s : EchoServer) socket uninit,
      (s.AcceptHandler socket .success uninit).connections s.allocated =
        (Connection.new socket uninit).Start) := by
  refine ⟨rfl, rfl, rfl, fun _ => rfl, ?_, ?_, ?_⟩
  · intro msgbuf k
    rw [start_iterate]
    simp [Connection.new, Socket.accepted]
  · intro msgbuf k
    rw [start_iterate]
    simp [Connection.new, Socket.accepted]
  · intro s socket uninit
    simp [EchoServer.AcceptHandler]

/-! ## Error outcomes -/

/-- Claim C8. A read or write completion with an error outcome: the handler issues no
read and no write (the socket is as it was), and the outbound queue and the buffer are
as they were. With the cancellation outcome the status is unchanged too. With any
other error the status ends `kError` when it was `kConnected` and is unchanged when it
was `kError` or `kClosed`. As completions, they take their own operation out of
flight and put none in. -/
theorem error_completion_stops_chain (c : Connection) (error : ErrorCode) (n : Nat)
    (stored : Msg) (herr : error ≠ .success) :
    (c.ReadHandler error n stored).socket_ = c.socket_ ∧
    (c.ReadHandler error n stored).write_queue_ = c.write_queue_ ∧
    (c.ReadHandler error n stored).msgbuf_ = c.msgbuf_ ∧
    (∃ w, c.WriteHandler error n = some w ∧ w.socket_ = c.socket_ ∧
      w.write_queue_ = c.write_queue_ ∧ w.msgbuf_ = c.msgbuf_ ∧
      w.status_ = (c.ReadHandler error n stored).status_) ∧
    (error = .operation_aborted → (c.ReadHandler error n stored).status_ = c.status_) ∧
    (error = .failure →
      (c.status_ = .kConnected → (c.ReadHandler error n stored).status_ = .kError) ∧
      (c.status_ = .kError → (c.ReadHandler error n stored).status_ = .kError) ∧
      (c.status_ = .kClosed → (c.ReadHandler error n stored).status_ = .kClosed)) ∧
    (∀ data c1, c.step (.read_done error data stored) = some c1 →
      c1.socket_.receives_pending = c.socket_.receives_pending - 1 ∧
      c1.socket_.receives_issued = c.socket_.receives_issued ∧
      c1.socket_.writes_pending = c.socket_.writes_pending ∧
      c1.socket_.written = c.socket_.written ∧ c1.write_queue_ = c.write_queue_) ∧
    (∀ c1, c.step (.write_done error n) = some c1 →
      c1.socket_.writes_pending = c.socket_.writes_pending - 1 ∧
      c1.socket_.written = c.socket_.written ∧
      c1.socket_.receives_pending = c.socket_.receives_pending ∧
      c1.socket_.receives_issued = c.socket_.receives_issued ∧
      c1.write_queue_ = c.write_queue_) := by
  cases error with
  | success => exact absurd rfl herr
  | operation_aborted =>
    refine ⟨rfl, rfl, rfl, ⟨c, rfl, rfl, rfl, rfl, rfl⟩, (fun _ => rfl),
      (fun h => by cases h), ?_, ?_⟩
    · intro data c1 h
      simp only [Connection.step] at h
      split at h
      · cases h
        simp [Connection.ReadHandler, Connection.complete, Socket.receive_done]
      · cases h
    · intro c1 h
      simp only [Connection.step] at h
      split at h
      · simp [Connection.WriteHandler, Connection.complete] at h
        subst h
        simp [Socket.write_done]
      · cases h
  | failure =>
    refine ⟨rfl, rfl, rfl, ⟨_, rfl, rfl, rfl, rfl, rfl⟩, (fun h => by cases h),
      (fun _ => ?_), ?_, ?_⟩
    · refine ⟨?_, ?_, ?_⟩ <;> intro h <;>
        simp [Connection.ReadHandler, compare_exchange_strong, h]
    · intro data c1 h
      simp only [Connection.step] at h
      split at h
      · cases h
        simp [Connection.ReadHandler, Connection.complete, Socket.receive_done]
      · cases h
    · intro c1 h
      simp only [Connection.step] at h
      split at h
      · simp [Connection.WriteHandler, Connection.complete] at h
        subst h
        simp [Socket.write_done]
      · cases h

/-- Witness for claim C8: a read failure on a connection that has been closed, with one
buffer queued, leaves it `kClosed` with the queue and the socket as they were. -/
theorem error_completion_stops_chain_witness :
    (({ (Connection.new Socket.accepted (fun _ => 0)).Start.Close with
          write_queue_ := [[9]] }).ReadHandler .failure 0 [3]).status_ = .kClosed ∧
    (({ (Connection.new Socket.accepted (fun _ => 0)).Start.Close with
          write_queue_ := [[9]] }).ReadHandler .failure 0 [3]).write_queue_ = [[9]] ∧
    (({ (Connection.new Socket.accepted (fun _ => 0)).Start.Close with
          write_queue_ := [[9]] }).ReadHandler .failure 0 [3]).socket_ =
      (Connection.new Socket.accepted (fun _ => 0)).Start.Close.socket_ :=
  ⟨((error_completion_stops_chain
      { (Connection.new Socket.accepted (fun _ => 0)).Start.Close with
          write_queue_ := [[9]] } .failure 0 [3] (by decide)).2.2.2.2.2.1 rfl).2.2 rfl,
    rfl, rfl⟩

/-! ## Handlers on several threads -/

/-- When the three steps of a successful `ReadHandler` run with nothing in between,
the connection ends as after the one-step handler. -/
theorem threaded_read_uninterrupted (c c1 : Connection) (ths : List Frame) (data : Msg)
    (h : c.step (.read_done .success data []) = some c1) :
    Threaded.run { conn := c, threads := ths }
      [.receive data, .advance ths.length, .advance ths.length, .advance ths.length] =
      some { conn := c1, threads := ths ++ [.done] } := by
  simp only [Connection.step] at h
  split at h
  · next hen =>
    cases h
    simp [Threaded.run, Threaded.step, hen, Frame.advance, Connection.ReadHandler,
      store_received_nil]
  · cases h

/-- Claim C9, the code at the failing schedules. The peer's bytes arrive as `[1, 2]`
and then `[3, 4]`. First schedule: the handler of the first read re-arms the read,
the second read completes into `msgbuf_`, and only then the first handler builds its
string: `[3, 4]` is written twice and `[1, 2]` never. Second schedule: the first
handler has built its string but the second handler reaches `EchoMsg` first: the
buffers are written in the order `[3, 4]`, `[1, 2]`. In both the queue drains and all
handlers finish. -/
theorem echo_order_lost_when_handlers_interleave :
    Action.received
      [.receive [1, 2], .advance 0, .receive [3, 4], .advance 0, .advance 0,
       .advance 1, .advance 1, .advance 1, .write_ok 2, .write_ok 2] = [[1, 2], [3, 4]] ∧
    (Threaded.run { conn := (Connection.new Socket.accepted (fun _ => 0)).Start, threads := [] }
      [.receive [1, 2], .advance 0, .receive [3, 4], .advance 0, .advance 0,
       .advance 1, .advance 1, .advance 1, .write_ok 2, .write_ok 2]).map
      (fun t => (t.conn.socket_.written, t.conn.write_queue_, t.threads)) =
      some ([[3, 4], [3, 4]], [], [.done, .done]) ∧
    Action.received
      [.receive [1, 2], .advance 0, .advance 0, .receive [3, 4], .advance 1,
       .advance 1, .advance 1, .advance 0, .write_ok 2, .write_ok 2] = [[1, 2], [3, 4]] ∧
    (Threaded.run { conn := (Connection.new Socket.accepted (fun _ => 0)).Start, threads := [] }
      [.receive [1, 2], .advance 0, .advance 0, .receive [3, 4], .advance 1,
       .advance 1, .advance 1, .advance 0, .write_ok 2, .write_ok 2]).map
      (fun t => (t.conn.socket_.written, t.conn.write_queue_, t.threads)) =
      some ([[3, 4], [1, 2]], [], [.done, .done]) := by
  refine ⟨by decide, by decide, by decide, by decide⟩

/-! ## Timers and the registry -/

theorem registryInv_started (store : ConnId → Connection) :
    RegistryInv (EchoServer.started store) := by
  constructor <;> simp [EchoServer.started, EchoServer.Start, EchoServer.new]

theorem timers_erase_conn_ne (timers : List Timer) (timer : Timer)
    (hn : (timers.map Timer.conn).Nodup) (hmem : timer ∈ timers) :
    ∀ t ∈ timers.erase timer, t.conn ≠ timer.conn := by
  intro t ht heq
  have hnd : timers.Nodup := List.Nodup.of_map _ hn
  have h := (List.Nodup.mem_erase_iff hnd).mp ht
  exact h.1 (List.inj_on_of_nodup_map hn h.2 hmem heq)

theorem registryInv_tick (s s1 : EchoServer) (timer : Timer) (error : ErrorCode)
    (h : RegistryInv s) (hstep : s.step (.tick timer error) = some s1) :
    RegistryInv s1 ∧
    (∀ c ∈ s.conn_set_, c ∉ s1.conn_set_ → c = timer.conn ∧ ∀ t ∈ s1.timers, t.conn ≠ c) := by
  obtain ⟨hreg, hone, hcr⟩ := h
  simp only [EchoServer.step] at hstep
  split at hstep
  · next hmem =>
    have hne := timers_erase_conn_ne s.timers timer hone hmem
    have hsub : ∀ t ∈ s.timers.erase timer, t ∈ s.timers :=
      fun t ht => List.mem_of_mem_erase ht
    have hone1 : ((s.timers.erase timer).map Timer.conn).Nodup :=
      List.Nodup.sublist ((List.erase_sublist timer s.timers).map Timer.conn) hone
    simp only [EchoServer.CheckSocketStatus] at hstep
    split at hstep
    · cases hstep
    · split at hstep
      · cases hstep
        refine ⟨⟨fun t ht => hreg t (hsub t ht), hone1, hcr⟩, ?_⟩
        intro c hc hnc
        exact absurd hc hnc
      · split at hstep
        · cases hstep
          refine ⟨⟨?_, hone1, ?_⟩, ?_⟩
          · intro t ht
            exact (connSet_mem_erase _ _ _).mpr ⟨hreg t (hsub t ht), hne t ht⟩
          · intro c hc
            exact hcr c ((connSet_mem_erase _ _ _).mp hc).1
          · intro c hc hnc
            have hceq : c = timer.conn := by
              by_contra hcne
              exact hnc ((connSet_mem_erase _ _ _).mpr ⟨hc, hcne⟩)
            exact ⟨hceq, fun t ht => hceq ▸ hne t ht⟩
        · split at hstep
          · cases hstep
            refine ⟨⟨?_, hone1, ?_⟩, ?_⟩
            · intro t ht
              exact (connSet_mem_erase _ _ _).mpr ⟨hreg t (hsub t ht), hne t ht⟩
            · intro c hc
              exact hcr c ((connSet_mem_erase _ _ _).mp hc).1
            · intro c hc hnc
              have hceq : c = timer.conn := by
                by_contra hcne
                exact hnc ((connSet_mem_erase _ _ _).mpr ⟨hc, hcne⟩)
              exact ⟨hceq, fun t ht => hceq ▸ hne t ht⟩
          · cases hstep
            refine ⟨⟨?_, ?_, hcr⟩, ?_⟩
            · intro t ht
              rcases List.mem_append.mp ht with ht | ht
              · exact hreg t (hsub t ht)
              · simp at ht
                subst ht
                exact hreg timer hmem
            · rw [List.map_append, List.nodup_append]
              refine ⟨hone1, by simp, ?_⟩
              intro a ha hb
              simp at hb
              obtain ⟨t, ht, rfl⟩ := List.mem_map.mp ha
              exact hne t ht hb
            · intro c hc hnc
              exact absurd hc hnc
  · cases hstep

theorem registryInv_step (s s1 : EchoServer) (e : ServerEvent) (h : RegistryInv s)
    (hstep : s.step e = some s1) :
    RegistryInv s1 ∧
    (∀ c ∈ s.conn_set_, c ∉ s1.conn_set_ →
      (∃ seconds error, e = .tick (Timer.mk c seconds) error) ∧
      ∀ t ∈ s1.timers, t.conn ≠ c) := by
  cases e with
  | tick timer error =>
    obtain ⟨h1, h2⟩ := registryInv_tick s s1 timer error h hstep
    refine ⟨h1, fun c hc hnc => ?_⟩
    obtain ⟨heq, hno⟩ := h2 c hc hnc
    exact ⟨⟨timer.seconds, error, by subst heq; rfl⟩, hno⟩
  | accept_done error uninit =>
    obtain ⟨hreg, hone, hcr⟩ := h
    simp only [EchoServer.step] at hstep
    split at hstep
    · cases hstep
      cases error with
      | operation_aborted =>
        exact ⟨⟨hreg, hone, hcr⟩, fun c hc hnc => absurd hc hnc⟩
      | failure =>
        exact ⟨⟨hreg, hone, hcr⟩, fun c hc hnc => absurd hc hnc⟩
      | success =>
        refine ⟨⟨?_, ?_, ?_⟩, ?_⟩
        · intro t ht
          simp only [EchoServer.AcceptHandler] at ht ⊢
          rcases List.mem_append.mp ht with ht | ht
          · exact (connSet_mem_insert _ _ _).mpr (Or.inr (hreg t ht))
          · simp at ht
            subst ht
            exact (connSet_mem_insert _ _ _).mpr (Or.inl rfl)
        · simp only [EchoServer.AcceptHandler]
          rw [List.map_append, List.nodup_append]
          refine ⟨hone, by simp, ?_⟩
          intro a ha hb
          simp at hb
          obtain ⟨t, ht, rfl⟩ := List.mem_map.mp ha
          exact Nat.ne_of_lt (hcr _ (hreg t ht)) hb
        · intro c hc
          simp only [EchoServer.AcceptHandler] at hc ⊢
          rcases (connSet_mem_insert _ _ _).mp hc with rfl | hc
          · exact Nat.lt_succ_self _
          · exact Nat.lt_succ_of_lt (hcr c hc)
        · intro c hc hnc
          exfalso
          apply hnc
          simp only [EchoServer.AcceptHandler]
          exact (connSet_mem_insert _ _ _).mpr (Or.inr hc)
    · cases hstep
  | io conn e =>
    obtain ⟨hreg, hone, hcr⟩ := h
    simp only [EchoServer.step] at hstep
    split at hstep
    · cases hc : (s.connections conn).step e with
      | none => simp [hc] at hstep
      | some c =>
        simp [hc] at hstep
        subst hstep
        exact ⟨⟨hreg, hone, hcr⟩, fun c hc hnc => absurd hc hnc⟩
    · cases hstep
  | stop =>
    simp [EchoServer.step] at hstep
    subst hstep
    exact ⟨⟨h.registered, h.one_timer, h.created⟩, fun c hc hnc => absurd hc hnc⟩

theorem registryInv_run (evs : List ServerEvent) :
    ∀ s s1 : EchoServer, RegistryInv s → s.run evs = some s1 → RegistryInv s1 := by
  induction evs with
  | nil =>
    intro s s1 h hrun
    simp [EchoServer.run] at hrun
    exact hrun ▸ h
  | cons e es ih =>
    intro s s1 h hrun
    simp only [EchoServer.run] at hrun
    cases hstep : s.step e with
    | none => simp [hstep] at hrun
    | some s2 =>
      simp [hstep] at hrun
      exact ih s2 s1 (registryInv_step s s2 e h hstep).1 hrun

theorem checkSocketStatus_isSome (s : EchoServer) (conn : ConnId) (error : ErrorCode)
    (hreg : conn ∈ s.conn_set_) : (s.CheckSocketStatus conn error).isSome = true := by
  simp only [EchoServer.CheckSocketStatus, hreg, not_true_eq_false, if_false]
  split
  · rfl
  · split
    · rfl
    · split <;> rfl

/-- Claim C10. In every state reached from a started server by accept completions,
health-check ticks, connection events (completions with any outcome, `Close()`) and
`Stop()`, every pending health-check timer is bound to a registered connection, so
the tick of any pending timer passes `assert(iter != conn_set_.end())` and has a
result. This still holds after one more event, and a connection leaves the registry
only by the tick of its own timer, after which no timer is pending for it. -/
theorem pending_timer_is_registered (store : ConnId → Connection) (evs : List ServerEvent)
    (s : EchoServer) (hrun : (EchoServer.started store).run evs = some s) :
    (∀ t ∈ s.timers, t.conn ∈ s.conn_set_) ∧
    (∀ t ∈ s.timers, ∀ error, (s.step (.tick t error)).isSome = true) ∧
    (∀ e s1, s.step e = some s1 →
      (∀ t ∈ s1.timers, t.conn ∈ s1.conn_set_) ∧
      (∀ c ∈ s.conn_set_, c ∉ s1.conn_set_ →
        (∃ seconds error, e = .tick (Timer.mk c seconds) error) ∧
        ∀ t ∈ s1.timers, t.conn ≠ c)) := by
  have hinv := registryInv_run evs _ s (registryInv_started store) hrun
  refine ⟨hinv.registered, ?_, ?_⟩
  · intro t ht error
    simp only [EchoServer.step, ht, if_true]
    exact checkSocketStatus_isSome _ _ _ (hinv.registered t ht)
  · intro e s1 hstep
    obtain ⟨h1, h2⟩ := registryInv_step s s1 e hinv hstep
    exact ⟨h1.registered, h2⟩

/-- Witness for claim C10: two connections are accepted, the first fails a read and is
reaped by its tick; the timer of the second is still pending and it is registered. -/
theorem pending_timer_is_registered_witness :
    ∃ s, (EchoServer.started (fun _ => Connection.new Socket.accepted (fun _ => 0))).run
        [.accept_done .success (fun _ => 0), .accept_done .success (fun _ => 0),
         .io 0 (.read_done .failure [] []), .tick (Timer.mk 0 1) .success] = some s ∧
      s.timers = [Timer.mk 1 1] ∧ s.conn_set_ = [1] ∧
      ∀ t ∈ s.timers, t.conn ∈ s.conn_set_ :=
  ⟨_, rfl, rfl, rfl,
    (pending_timer_is_registered (fun _ => Connection.new Socket.accepted (fun _ => 0))
      [.accept_done .success (fun _ => 0), .accept_done .success (fun _ => 0),
       .io 0 (.read_done .failure [] []), .tick (Timer.mk 0 1) .success] _ rfl).1⟩

end Echo
